import Mathlib

/-!
Shallow embedding of the pixel-processing passes of the `screen` repository
(src/utils/glitchAlgorithms.ts, src/utils/chromaKeyAlgorithms.ts) together
with theorems settling the stated properties of those passes.

Conventions of the embedding:
* The JS code stores a raster as a flat `Uint8ClampedArray` of 4 bytes per
  pixel (R,G,B,A, row-major).  Every pass treated here accesses that array
  only at pixel-aligned offsets (`4*i+c`), so the buffer is modelled as a
  `List Pixel` in pixel units; byte index `((y*width)+x)*4 + c` becomes
  channel `c` of list element `y*width + x`.  Strict byte-length guards such
  as `srcStart + len < data.length` translate verbatim to pixel units
  because all quantities involved are multiples of 4.
* JS numbers are modelled as `ℚ` (integer byte reads embed via the cast);
  `Math.floor` is `Int.floor`.  Stores into a `Uint8ClampedArray` cell clamp
  to `[0,255]` and round half to even; this is `clampByte` below.
* `Math.random()` draws are modelled as explicit rational oracles
  (`u : ℕ → ℚ` with values in `[0,1)`), one independent oracle per use site,
  indexed by draw position.
-/

/-- One RGBA pixel: four byte channels of the flat `Uint8ClampedArray`. -/
structure Pixel where
  r : ℕ
  g : ℕ
  b : ℕ
  a : ℕ
  deriving DecidableEq, Repr

instance : Inhabited Pixel := ⟨⟨0, 0, 0, 0⟩⟩

/-- Round half to even, the rounding mode used when a JS number is stored
into a `Uint8ClampedArray` cell. -/
def rhe (q : ℚ) : ℤ :=
  if q - ⌊q⌋ < 1/2 then ⌊q⌋
  else if q - ⌊q⌋ > 1/2 then ⌊q⌋ + 1
  else if ⌊q⌋ % 2 = 0 then ⌊q⌋ else ⌊q⌋ + 1

/-- Semantics of storing a JS number into a `Uint8ClampedArray` cell:
clamp to `[0,255]`, rounding half to even. -/
def clampByte (q : ℚ) : ℕ :=
  if q ≤ 0 then 0 else if 255 ≤ q then 255 else (rhe q).toNat

/-- Embedding of the per-pixel body of `applyThreshold`
(src/utils/glitchAlgorithms.ts lines 13-27): brightness is the channel
average `(r+g+b)/3`; the pixel becomes white when `brightness ≥ threshold`,
black otherwise; alpha is untouched. -/
def thresholdPixel (threshold : ℚ) (p : Pixel) : Pixel :=
  let brightness : ℚ := ((p.r : ℚ) + (p.g : ℚ) + (p.b : ℚ)) / 3
  let val : ℕ := if brightness ≥ threshold then 255 else 0
  { r := val, g := val, b := val, a := p.a }

/-- Embedding of `applyThreshold` (src/utils/glitchAlgorithms.ts lines 9-28).
The early return at `threshold <= 0` is the identity branch. -/
def applyThreshold (data : List Pixel) (threshold : ℚ) : List Pixel :=
  if threshold ≤ 0 then data else data.map (thresholdPixel threshold)

/-- Embedding of the per-pixel body of `applyRGBShift`
(src/utils/glitchAlgorithms.ts lines 39-50): the red channel is resampled
from column `(x+offset) % width` of the pre-pass snapshot `data`; the
source's guard `if (newIndex < len)` is the `Option` match. -/
def rgbShiftPixel (data : List Pixel) (width offset pixelIndex : ℕ)
    (p : Pixel) : Pixel :=
  let x := pixelIndex % width
  let y := (pixelIndex - x) / width
  let newX := (x + offset) % width
  let newIndex := y * width + newX
  match data[newIndex]? with
  | some q => { p with r := q.r }
  | none => p

/-- Embedding of `applyRGBShift` (src/utils/glitchAlgorithms.ts lines 31-51).
The snapshot `buffer` of the source is the `data` argument captured before
the rewrite; `height` is a parameter of the source function that its body
does not use. -/
def applyRGBShift (data : List Pixel) (width height offset : ℕ) : List Pixel :=
  if offset = 0 then data
  else List.mapIdx (fun i p => rgbShiftPixel data width offset i p) data

/-- C1: for `0 < t ≤ 255` the threshold pass makes every channel of every
pixel `0` or `255` (`255` exactly when `(R+G+B)/3 ≥ t`), keeps alpha, and a
second application with the same `t` is the identity. -/
theorem threshold_pass_correct (data : List Pixel) (t : ℚ)
    (h0 : 0 < t) (h1 : t ≤ 255) :
    (applyThreshold data t).length = data.length ∧
    (∀ i, i < data.length →
      (let p := data.getD i default
       let q := (applyThreshold data t).getD i default
       (q.r = if ((p.r : ℚ) + (p.g : ℚ) + (p.b : ℚ)) / 3 ≥ t then 255 else 0) ∧
       (q.g = if ((p.r : ℚ) + (p.g : ℚ) + (p.b : ℚ)) / 3 ≥ t then 255 else 0) ∧
       (q.b = if ((p.r : ℚ) + (p.g : ℚ) + (p.b : ℚ)) / 3 ≥ t then 255 else 0) ∧
       q.a = p.a)) ∧
    (∀ p ∈ applyThreshold data t,
      (p.r = 0 ∨ p.r = 255) ∧ (p.g = 0 ∨ p.g = 255) ∧ (p.b = 0 ∨ p.b = 255)) ∧
    applyThreshold (applyThreshold data t) t = applyThreshold data t := by
  have hnot : ¬ t ≤ 0 := not_le.mpr h0
  have hdef : applyThreshold data t = data.map (thresholdPixel t) := by
    simp [applyThreshold, hnot]
  refine ⟨by simp [hdef], ?_, ?_, ?_⟩
  · intro i hi
    have hgd : (data.map (thresholdPixel t)).getD i default
        = thresholdPixel t (data.getD i default) := by
      have hi2 : i < (data.map (thresholdPixel t)).length := by simpa using hi
      rw [List.getD_eq_getElem _ _ hi2, List.getD_eq_getElem _ _ hi,
        List.getElem_map]
    rw [hdef, hgd]
    simp [thresholdPixel]
  · intro p hp
    rw [hdef] at hp
    rcases List.mem_map.mp hp with ⟨q, _, rfl⟩
    simp only [thresholdPixel]
    split <;> simp
  · have hout : applyThreshold (applyThreshold data t) t
        = (data.map (thresholdPixel t)).map (thresholdPixel t) := by
      rw [hdef]; simp [applyThreshold, hnot]
    rw [hout, hdef, List.map_map]
    apply List.map_congr_left
    intro p _
    simp only [Function.comp_apply, thresholdPixel]
    by_cases hb : ((p.r : ℚ) + (p.g : ℚ) + (p.b : ℚ)) / 3 ≥ t
    · simp only [if_pos hb]
      have : ((255 : ℕ) : ℚ) + ((255 : ℕ) : ℚ) + ((255 : ℕ) : ℚ) = 765 := by
        norm_num
      have h765 : (765 : ℚ) / 3 ≥ t := by linarith
      simp only [this]
      rw [if_pos h765]
    · simp only [if_neg hb]
      have h03 : ¬ (((0 : ℕ) : ℚ) + ((0 : ℕ) : ℚ) + ((0 : ℕ) : ℚ)) / 3 ≥ t := by
        push_cast
        intro hcon
        have : (0 : ℚ) ≥ t := by linarith
        linarith
      rw [if_neg h03]

/-- Witness for `threshold_pass_correct` at a concrete buffer and `t = 50`. -/
theorem threshold_pass_correct_witness :
    ((applyThreshold [⟨10, 20, 30, 5⟩, ⟨200, 210, 220, 7⟩] 50).length
      = ([⟨10, 20, 30, 5⟩, ⟨200, 210, 220, 7⟩] : List Pixel).length) ∧
    (∀ i, i < ([⟨10, 20, 30, 5⟩, ⟨200, 210, 220, 7⟩] : List Pixel).length →
      (let p := ([⟨10, 20, 30, 5⟩, ⟨200, 210, 220, 7⟩] : List Pixel).getD i default
       let q := (applyThreshold [⟨10, 20, 30, 5⟩, ⟨200, 210, 220, 7⟩] 50).getD i default
       (q.r = if ((p.r : ℚ) + (p.g : ℚ) + (p.b : ℚ)) / 3 ≥ 50 then 255 else 0) ∧
       (q.g = if ((p.r : ℚ) + (p.g : ℚ) + (p.b : ℚ)) / 3 ≥ 50 then 255 else 0) ∧
       (q.b = if ((p.r : ℚ) + (p.g : ℚ) + (p.b : ℚ)) / 3 ≥ 50 then 255 else 0) ∧
       q.a = p.a)) ∧
    (∀ p ∈ applyThreshold [⟨10, 20, 30, 5⟩, ⟨200, 210, 220, 7⟩] 50,
      (p.r = 0 ∨ p.r = 255) ∧ (p.g = 0 ∨ p.g = 255) ∧ (p.b = 0 ∨ p.b = 255)) ∧
    applyThreshold (applyThreshold [⟨10, 20, 30, 5⟩, ⟨200, 210, 220, 7⟩] 50) 50
      = applyThreshold [⟨10, 20, 30, 5⟩, ⟨200, 210, 220, 7⟩] 50 :=
  threshold_pass_correct [⟨10, 20, 30, 5⟩, ⟨200, 210, 220, 7⟩] 50
    (by norm_num) (by norm_num)

/-- Reading an element with default through `List.mapIdx`. -/
theorem getD_mapIdx {α β : Type} (f : ℕ → α → β) (l : List α) (i : ℕ)
    (d : β) (dd : α) (hi : i < l.length) :
    (List.mapIdx f l).getD i d = f i (l.getD i dd) := by
  simp [List.getElem?_eq_getElem hi]

/-- C7: the channel-shift pass at offset 0 is the identity, and for any
offset every pixel's red channel is resampled from column
`(x+offset) % width` of the same row of the pre-pass buffer while green,
blue and alpha are unchanged. -/
theorem rgb_shift_correct (data : List Pixel) (w h offset : ℕ)
    (hlen : data.length = w * h) (hoff : offset ≤ 50) :
    applyRGBShift data w h 0 = data ∧
    (∀ x y, x < w → y < h →
      ((applyRGBShift data w h offset).getD (y * w + x) default).r
        = (data.getD (y * w + (x + offset) % w) default).r ∧
      ((applyRGBShift data w h offset).getD (y * w + x) default).g
        = (data.getD (y * w + x) default).g ∧
      ((applyRGBShift data w h offset).getD (y * w + x) default).b
        = (data.getD (y * w + x) default).b ∧
      ((applyRGBShift data w h offset).getD (y * w + x) default).a
        = (data.getD (y * w + x) default).a) := by
  constructor
  · simp [applyRGBShift]
  intro x y hx hy
  have hw : 0 < w := Nat.pos_of_ne_zero (by rintro rfl; exact Nat.not_lt_zero x hx)
  have hxmod : (y * w + x) % w = x := by
    rw [Nat.add_comm, Nat.add_mul_mod_self_right, Nat.mod_eq_of_lt hx]
  have hydiv : (y * w + x - x) / w = y := by
    rw [Nat.add_sub_cancel, Nat.mul_div_cancel _ hw]
  by_cases h0 : offset = 0
  · subst h0
    simp [applyRGBShift, Nat.mod_eq_of_lt hx]
  have hi : y * w + x < data.length := by
    rw [hlen]
    calc y * w + x < y * w + w := by omega
    _ = (y + 1) * w := by ring
    _ ≤ h * w := Nat.mul_le_mul_right w hy
    _ = w * h := Nat.mul_comm h w
  have hnewX : (x + offset) % w < w := Nat.mod_lt _ hw
  have hnew : y * w + (x + offset) % w < data.length := by
    rw [hlen]
    calc y * w + (x + offset) % w < y * w + w := by omega
    _ = (y + 1) * w := by ring
    _ ≤ h * w := Nat.mul_le_mul_right w hy
    _ = w * h := Nat.mul_comm h w
  have hout : applyRGBShift data w h offset
      = List.mapIdx (fun i p => rgbShiftPixel data w offset i p) data := by
    simp [applyRGBShift, h0]
  rw [hout, getD_mapIdx _ _ _ _ default hi]
  simp only [rgbShiftPixel, hxmod, hydiv]
  rw [List.getElem?_eq_getElem hnew]
  refine ⟨?_, rfl, rfl, rfl⟩
  rw [List.getD_eq_getElem _ _ hnew]

/-- Witness for `rgb_shift_correct` on a concrete 2×2 buffer with offset 1. -/
theorem rgb_shift_correct_witness :
    applyRGBShift [⟨1, 2, 3, 4⟩, ⟨5, 6, 7, 8⟩, ⟨9, 10, 11, 12⟩, ⟨13, 14, 15, 16⟩] 2 2 0
      = [⟨1, 2, 3, 4⟩, ⟨5, 6, 7, 8⟩, ⟨9, 10, 11, 12⟩, ⟨13, 14, 15, 16⟩] ∧
    (∀ x y, x < 2 → y < 2 →
      ((applyRGBShift [⟨1, 2, 3, 4⟩, ⟨5, 6, 7, 8⟩, ⟨9, 10, 11, 12⟩, ⟨13, 14, 15, 16⟩] 2 2 1).getD
          (y * 2 + x) default).r
        = (([⟨1, 2, 3, 4⟩, ⟨5, 6, 7, 8⟩, ⟨9, 10, 11, 12⟩, ⟨13, 14, 15, 16⟩] : List Pixel).getD
          (y * 2 + (x + 1) % 2) default).r ∧
      ((applyRGBShift [⟨1, 2, 3, 4⟩, ⟨5, 6, 7, 8⟩, ⟨9, 10, 11, 12⟩, ⟨13, 14, 15, 16⟩] 2 2 1).getD
          (y * 2 + x) default).g
        = (([⟨1, 2, 3, 4⟩, ⟨5, 6, 7, 8⟩, ⟨9, 10, 11, 12⟩, ⟨13, 14, 15, 16⟩] : List Pixel).getD
          (y * 2 + x) default).g ∧
      ((applyRGBShift [⟨1, 2, 3, 4⟩, ⟨5, 6, 7, 8⟩, ⟨9, 10, 11, 12⟩, ⟨13, 14, 15, 16⟩] 2 2 1).getD
          (y * 2 + x) default).b
        = (([⟨1, 2, 3, 4⟩, ⟨5, 6, 7, 8⟩, ⟨9, 10, 11, 12⟩, ⟨13, 14, 15, 16⟩] : List Pixel).getD
          (y * 2 + x) default).b ∧
      ((applyRGBShift [⟨1, 2, 3, 4⟩, ⟨5, 6, 7, 8⟩, ⟨9, 10, 11, 12⟩, ⟨13, 14, 15, 16⟩] 2 2 1).getD
          (y * 2 + x) default).a
        = (([⟨1, 2, 3, 4⟩, ⟨5, 6, 7, 8⟩, ⟨9, 10, 11, 12⟩, ⟨13, 14, 15, 16⟩] : List Pixel).getD
          (y * 2 + x) default).a) :=
  rgb_shift_correct [⟨1, 2, 3, 4⟩, ⟨5, 6, 7, 8⟩, ⟨9, 10, 11, 12⟩, ⟨13, 14, 15, 16⟩] 2 2 1
    (by norm_num) (by norm_num)

/-- One RGB color triple (the parsed chroma key target). -/
structure RGB where
  r : ℕ
  g : ℕ
  b : ℕ
  deriving DecidableEq, Repr

/-- Test for the character class `[a-f\d]` of the key-color regex of
`hexToRgb` (src/utils/chromaKeyAlgorithms.ts line 5), with the `i` flag
making it case-insensitive. -/
def isHexDigitChar (c : Char) : Bool :=
  c.isDigit || (('a' ≤ c) && (c ≤ 'f')) || (('A' ≤ c) && (c ≤ 'F'))

/-- Numeric value of one hex digit, as read by `parseInt(_, 16)`. -/
def hexDigitVal (c : Char) : ℕ :=
  if c.isDigit then c.toNat - '0'.toNat
  else if 'a' ≤ c then c.toNat - 'a'.toNat + 10
  else c.toNat - 'A'.toNat + 10

/-- Value of a two-digit hex group, as read by `parseInt(group, 16)`. -/
def hexPair (c1 c2 : Char) : ℕ := 16 * hexDigitVal c1 + hexDigitVal c2

/-- Consumption of the optional leading `#` in the pattern `^#?...`.  As
`#` is not in `[a-f\d]`, a leading `#` must be consumed by the optional
group for the anchored pattern to match, so stripping it is exact. -/
def stripHash : List Char → List Char
  | '#' :: rest => rest
  | s => s

/-- Well-formedness of a key-color string: the anchored regex
`^#?([a-f\d]{2})([a-f\d]{2})([a-f\d]{2})$/i` matches exactly when, after
the optional `#`, the string is six characters of the class `[a-f\d]/i`. -/
def isWellFormedHex (s : List Char) : Bool :=
  (stripHash s).length = 6 && (stripHash s).all isHexDigitChar

/-- Embedding of `hexToRgb` (src/utils/chromaKeyAlgorithms.ts lines 4-11):
parse the three two-digit groups on a regex match, otherwise fall back to
the default key color `{ r: 0, g: 255, b: 0 }`. -/
def hexToRgb (hex : List Char) : RGB :=
  match stripHash hex with
  | [c1, c2, c3, c4, c5, c6] =>
      if isHexDigitChar c1 && isHexDigitChar c2 && isHexDigitChar c3 &&
         isHexDigitChar c4 && isHexDigitChar c5 && isHexDigitChar c6 then
        ⟨hexPair c1 c2, hexPair c3 c4, hexPair c5 c6⟩
      else ⟨0, 255, 0⟩
  | _ => ⟨0, 255, 0⟩

/-- Embedding of the loop body of `applyChromaKey`
(src/utils/chromaKeyAlgorithms.ts lines 33-69) for one pixel.  `sqrtA`
is an oracle modelling `Math.sqrt`; the only facts used about it are
facts true of the exact square root (notably `sqrtA 0 = 0`). -/
def chromaPixel (target : RGB) (similarity smoothness spill : ℚ)
    (sqrtA : ℚ → ℚ) (p : Pixel) : Pixel :=
  let dr : ℤ := (p.r : ℤ) - (target.r : ℤ)
  let dg : ℤ := (p.g : ℤ) - (target.g : ℤ)
  let db : ℤ := (p.b : ℤ) - (target.b : ℤ)
  let distSq : ℚ := ((dr * dr + dg * dg + db * db : ℤ) : ℚ)
  let distThreshold : ℚ := similarity * 442
  let distThresholdSq : ℚ := distThreshold * distThreshold
  let smoothRange : ℚ := smoothness * 100
  if distSq < distThresholdSq then { p with a := 0 }
  else if smoothRange > 0 ∧ distSq < distThresholdSq + smoothRange * smoothRange then
    let dist := sqrtA distSq
    let base := sqrtA distThresholdSq
    let alpha := (dist - base) / smoothRange
    let p1 : Pixel :=
      if spill > 0 then
        let gray : ℚ := (p.r : ℚ) * (299/1000) + (p.g : ℚ) * (587/1000)
          + (p.b : ℚ) * (114/1000)
        { p with
          r := clampByte ((p.r : ℚ) * (1 - spill) + gray * spill),
          g := clampByte ((p.g : ℚ) * (1 - spill) + gray * spill),
          b := clampByte ((p.b : ℚ) * (1 - spill) + gray * spill) }
      else p
    { p1 with a := clampByte (alpha * 255) }
  else p

/-- Chroma parameter record (src/types.ts, `ChromaParams`). -/
structure ChromaParams where
  enabled : Bool
  keyColor : List Char
  similarity : ℚ
  smoothness : ℚ
  spill : ℚ

/-- Embedding of `applyChromaKey` (src/utils/chromaKeyAlgorithms.ts
lines 13-73): no-op when disabled, otherwise the per-pixel kernel mapped
over the frame with the target parsed once from `keyColor`. -/
def applyChromaKey (data : List Pixel) (params : ChromaParams)
    (sqrtA : ℚ → ℚ) : List Pixel :=
  if params.enabled = false then data
  else
    let target := hexToRgb params.keyColor
    data.map
      (chromaPixel target params.similarity params.smoothness params.spill
        sqrtA)

/-- Reading an element with default through `List.map`. -/
theorem getD_map {α β : Type} (f : α → β) (l : List α) (i : ℕ)
    (d : β) (dd : α) (hi : i < l.length) :
    (l.map f).getD i d = f (l.getD i dd) := by
  simp [List.getElem?_eq_getElem hi]

/-- Pixel-level core of the corrected chroma-key claim: a pixel whose
R,G,B equal the target has its alpha set to 0 provided similarity or
smoothness is positive. -/
theorem chromaPixel_exact_alpha (target : RGB) (sim smooth spill : ℚ)
    (sqrtA : ℚ → ℚ) (p : Pixel) (hsq : sqrtA 0 = 0)
    (hne : 0 < sim ∨ 0 < smooth)
    (hr : p.r = target.r) (hg : p.g = target.g) (hb : p.b = target.b) :
    (chromaPixel target sim smooth spill sqrtA p).a = 0 := by
  obtain ⟨pr, pg, pb, pa⟩ := p
  simp only at hr hg hb
  subst hr hg hb
  simp only [chromaPixel, sub_self, mul_zero, zero_mul, add_zero,
    Int.cast_zero]
  by_cases h1 : (0 : ℚ) < sim * 442 * (sim * 442)
  · rw [if_pos h1]
  · rw [if_neg h1]
    have hsm : 0 < smooth := by
      rcases hne with hs | hs
      · exfalso
        apply h1
        have : (0 : ℚ) < sim * 442 := by positivity
        positivity
      · exact hs
    have hpos : smooth * 100 > 0 ∧
        (0 : ℚ) < sim * 442 * (sim * 442) + smooth * 100 * (smooth * 100) := by
      constructor
      · positivity
      · have h442 : (0 : ℚ) ≤ sim * 442 * (sim * 442) := mul_self_nonneg _
        nlinarith
    rw [if_pos hpos]
    have hzero : sim * 442 * (sim * 442) = 0 := by
      have h442 : (0 : ℚ) ≤ sim * 442 * (sim * 442) := mul_self_nonneg _
      rcases lt_or_eq_of_le h442 with hlt | heq
      · exact absurd hlt h1
      · exact heq.symm
    rw [hzero, hsq]
    simp [clampByte]

/-- With `similarity = 0` and `smoothness = 0` both branches of the
chroma kernel are dead and every pixel passes through unchanged. -/
theorem chromaPixel_zero_zero (target : RGB) (spill : ℚ) (sqrtA : ℚ → ℚ)
    (p : Pixel) : chromaPixel target 0 0 spill sqrtA p = p := by
  simp only [chromaPixel]
  split
  next hc =>
    exfalso
    push_cast at hc
    nlinarith [sq_nonneg ((p.r : ℚ) - (target.r : ℚ)),
      sq_nonneg ((p.g : ℚ) - (target.g : ℚ)),
      sq_nonneg ((p.b : ℚ) - (target.b : ℚ))]
  next =>
    split
    next hc2 =>
      exfalso
      rcases hc2 with ⟨h2, _⟩
      norm_num at h2
    next => rfl

/-- Counterexample to C2 as stated: with `similarity = 0` and
`smoothness = 0` a pixel exactly equal to the key color takes neither
branch of the chroma kernel, so its alpha survives unchanged. -/
theorem chroma_exact_match_counterexample :
    ¬ (∀ (sim smooth spill : ℚ) (sqrtA : ℚ → ℚ) (key : List Char)
        (data : List Pixel) (i : ℕ),
        0 ≤ sim → sim ≤ 1 → 0 ≤ smooth → smooth ≤ 1 → sqrtA 0 = 0 →
        i < data.length →
        (data.getD i default).r = (hexToRgb key).r →
        (data.getD i default).g = (hexToRgb key).g →
        (data.getD i default).b = (hexToRgb key).b →
        ((applyChromaKey data ⟨true, key, sim, smooth, spill⟩ sqrtA).getD i
          default).a = 0) := by
  intro h
  have hx := h 0 0 0 (fun _ => 0) (['0', '0', 'f', 'f', '0', '0'])
      [⟨0, 255, 0, 255⟩] 0 le_rfl zero_le_one le_rfl zero_le_one rfl
      (by norm_num) (by decide) (by decide) (by decide)
  have heval : ((applyChromaKey [⟨0, 255, 0, 255⟩]
      ⟨true, ['0', '0', 'f', 'f', '0', '0'], 0, 0, 0⟩
      (fun _ => 0)).getD 0 default).a = 255 := by
    have ht : applyChromaKey [⟨0, 255, 0, 255⟩]
        ⟨true, ['0', '0', 'f', 'f', '0', '0'], 0, 0, 0⟩ (fun _ => 0)
        = [⟨0, 255, 0, 255⟩].map (chromaPixel ⟨0, 255, 0⟩ 0 0 0 (fun _ => 0)) := by
      have hkey : hexToRgb ['0', '0', 'f', 'f', '0', '0'] = ⟨0, 255, 0⟩ := by
        decide
      simp [applyChromaKey, hkey]
    rw [ht]
    simp [chromaPixel_zero_zero]
  rw [heval] at hx
  exact absurd hx (by norm_num)

/-- C2 corrected: in the enabled chroma-key stage, a pixel whose R, G, B
exactly equal the parsed key color has its alpha set to 0 for every
`similarity ∈ [0,1]` and `smoothness ∈ [0,1]` except at
`similarity = 0 ∧ smoothness = 0`, where the pixel is left unchanged
(so in particular its alpha survives). -/
theorem chroma_exact_match (data : List Pixel) (key : List Char)
    (sim smooth spill : ℚ) (sqrtA : ℚ → ℚ) (i : ℕ)
    (hsim0 : 0 ≤ sim) (hsim1 : sim ≤ 1)
    (hsm0 : 0 ≤ smooth) (hsm1 : smooth ≤ 1)
    (hsq : sqrtA 0 = 0) (hne : 0 < sim ∨ 0 < smooth) (hi : i < data.length)
    (hr : (data.getD i default).r = (hexToRgb key).r)
    (hg : (data.getD i default).g = (hexToRgb key).g)
    (hb : (data.getD i default).b = (hexToRgb key).b) :
    ((applyChromaKey data ⟨true, key, sim, smooth, spill⟩ sqrtA).getD i
      default).a = 0 := by
  have htrue : applyChromaKey data ⟨true, key, sim, smooth, spill⟩ sqrtA
      = data.map (chromaPixel (hexToRgb key) sim smooth spill sqrtA) := by
    simp [applyChromaKey]
  rw [htrue, getD_map _ _ _ _ default hi]
  exact chromaPixel_exact_alpha _ _ _ _ _ _ hsq hne hr hg hb

/-- Witness for `chroma_exact_match` at `similarity = 0`,
`smoothness = 1/2` on a one-pixel buffer equal to the key color. -/
theorem chroma_exact_match_witness :
    ((applyChromaKey [⟨0, 255, 0, 123⟩]
        ⟨true, ['0', '0', 'f', 'f', '0', '0'], 0, 1/2, 0⟩
        (fun _ => 0)).getD 0 default).a = 0 :=
  chroma_exact_match [⟨0, 255, 0, 123⟩] ['0', '0', 'f', 'f', '0', '0']
    0 (1/2) 0 (fun _ => 0) 0 le_rfl zero_le_one (by norm_num) (by norm_num)
    rfl (Or.inr (by norm_num)) (by norm_num) (by decide) (by decide)
    (by decide)

/-- Equation for `hexToRgb` when the stripped string has exactly six
characters. -/
theorem hexToRgb_eq_of_stripHash {s : List Char} {c1 c2 c3 c4 c5 c6 : Char}
    (heq : stripHash s = [c1, c2, c3, c4, c5, c6]) :
    hexToRgb s =
      if isHexDigitChar c1 && isHexDigitChar c2 && isHexDigitChar c3 &&
         isHexDigitChar c4 && isHexDigitChar c5 && isHexDigitChar c6 then
        ⟨hexPair c1 c2, hexPair c3 c4, hexPair c5 c6⟩
      else ⟨0, 255, 0⟩ := by
  unfold hexToRgb
  rw [heq]

/-- C9: a key-color string rejected by the regex makes `hexToRgb` return
the fixed default `{r:0,g:255,b:0}`, so the chroma stage behaves exactly
as if the well-formed default string "00ff00" had been supplied, for
every buffer and every other parameter; and a well-formed string parses
to the values of its three hex-digit pairs. -/
theorem hex_fallback (s : List Char) (data : List Pixel) (en : Bool)
    (sim smooth spill : ℚ) (sqrtA : ℚ → ℚ)
    (hbad : isWellFormedHex s = false) :
    hexToRgb s = ⟨0, 255, 0⟩ ∧
    applyChromaKey data ⟨en, s, sim, smooth, spill⟩ sqrtA
      = applyChromaKey data ⟨en, ['0', '0', 'f', 'f', '0', '0'], sim, smooth, spill⟩
          sqrtA ∧
    (∀ t : List Char, isWellFormedHex t = true →
      ∀ c1 c2 c3 c4 c5 c6, stripHash t = [c1, c2, c3, c4, c5, c6] →
        hexToRgb t = ⟨hexPair c1 c2, hexPair c3 c4, hexPair c5 c6⟩) := by
  have hA : hexToRgb s = ⟨0, 255, 0⟩ := by
    unfold hexToRgb
    split
    next c1 c2 c3 c4 c5 c6 heq =>
      rw [isWellFormedHex, heq] at hbad
      rw [if_neg]
      intro hcond
      simp at hbad hcond
      simp_all
    next => rfl
  refine ⟨hA, ?_, ?_⟩
  · cases en with
    | false => simp [applyChromaKey]
    | true =>
      have h2 : hexToRgb ['0', '0', 'f', 'f', '0', '0'] = ⟨0, 255, 0⟩ := by
        decide
      simp [applyChromaKey, hA, h2]
  · intro t ht c1 c2 c3 c4 c5 c6 heq
    have hc : (isHexDigitChar c1 && isHexDigitChar c2 && isHexDigitChar c3 &&
        isHexDigitChar c4 && isHexDigitChar c5 && isHexDigitChar c6) = true := by
      rw [isWellFormedHex, heq] at ht
      simp at ht ⊢
      tauto
    rw [hexToRgb_eq_of_stripHash heq, if_pos hc]

/-- Witness for `hex_fallback` at the malformed key string "zz". -/
theorem hex_fallback_witness :
    hexToRgb ['z', 'z'] = ⟨0, 255, 0⟩ ∧
    applyChromaKey [⟨1, 2, 3, 4⟩] ⟨true, ['z', 'z'], 0, 0, 0⟩ (fun _ => 0)
      = applyChromaKey [⟨1, 2, 3, 4⟩]
          ⟨true, ['0', '0', 'f', 'f', '0', '0'], 0, 0, 0⟩ (fun _ => 0) ∧
    (∀ t : List Char, isWellFormedHex t = true →
      ∀ c1 c2 c3 c4 c5 c6, stripHash t = [c1, c2, c3, c4, c5, c6] →
        hexToRgb t = ⟨hexPair c1 c2, hexPair c3 c4, hexPair c5 c6⟩) :=
  hex_fallback ['z', 'z'] [⟨1, 2, 3, 4⟩] true 0 0 0 (fun _ => 0) (by decide)

/-- Coordinate clamp of the displacement sampler (blend section lines
246-247): negative values clamp to 0, values at or beyond the bound clamp
to `bound - 1`. -/
def clampCoord (v : ℤ) (bound : ℕ) : ℤ :=
  if v < 0 then 0 else if v ≥ (bound : ℤ) then (bound : ℤ) - 1 else v

/-- Source pixel index used by the displacement blend for destination
pixel `i` (blend section lines 229-249): per-axis shifts are
`⌊((channel/127.5) - 1) · (scale·2)⌋` of B's red/green channel, added to
`(x, y)` and clamped to the buffer bounds. -/
def dispSrcIndex (B : List Pixel) (w h : ℕ) (scale : ℚ) (i : ℕ) : ℕ :=
  let displacementScale : ℚ := scale * 2
  let br : ℚ := ((B.getD i default).r : ℚ)
  let bg : ℚ := ((B.getD i default).g : ℚ)
  let shiftX : ℤ := Int.floor ((br / 127.5 - 1) * displacementScale)
  let shiftY : ℤ := Int.floor ((bg / 127.5 - 1) * displacementScale)
  let x := i % w
  let y := (i - x) / w
  let srcX := clampCoord ((x : ℤ) + shiftX) w
  let srcY := clampCoord ((y : ℤ) + shiftY) h
  (srcY * (w : ℤ) + srcX).toNat

/-- Embedding of the displacement branch of `renderBlend` (blend section
lines 225-257): a pre-mutation snapshot `buffer` of A is taken before the
loop, and each destination pixel whose draw exceeds `1 - mix` (with
`mix = params.mix/100`) receives the snapshot's R, G and B at the
displaced clamped source position; the alpha byte is not written. -/
def displacementBlend (A B : List Pixel) (w h : ℕ) (mixParam scale : ℚ)
    (draw : ℕ → ℚ) : List Pixel :=
  let buffer := A
  let mix := mixParam / 100
  List.mapIdx (fun i p =>
    if draw i > 1 - mix then
      let q := buffer.getD (dispSrcIndex B w h scale i) default
      { r := q.r, g := q.g, b := q.b, a := p.a }
    else p) A

/-- Counterexample to C3 as stated: the displacement branch copies only
the R, G, B bytes, never alpha, so an updated pixel does not receive the
whole snapshot pixel when alphas differ.  At `w = 2, h = 1` with
`B.red = B.green = 0`, `scale = 1`, `mix = 100`, destination pixel 1
samples source pixel 0 but keeps its own alpha 20 instead of 10. -/
theorem displacement_blend_counterexample :
    ¬ (∀ (A B : List Pixel) (w h : ℕ) (mixParam scale : ℚ) (draw : ℕ → ℚ),
        A.length = w * h → B.length = w * h →
        ∀ i, i < A.length → draw i > 1 - mixParam / 100 →
          (displacementBlend A B w h mixParam scale draw).getD i default
            = A.getD (dispSrcIndex B w h scale i) default) := by
  intro hclaim
  have hx := hclaim [⟨0, 0, 0, 10⟩, ⟨1, 1, 1, 20⟩] [⟨0, 0, 0, 0⟩, ⟨0, 0, 0, 0⟩]
    2 1 100 1 (fun _ => 1/2) rfl rfl 1 (by norm_num) (by norm_num)
  have hsrc : dispSrcIndex [⟨0, 0, 0, 0⟩, ⟨0, 0, 0, 0⟩] 2 1 1 1 = 0 := by
    norm_num [dispSrcIndex, clampCoord]
  have hout : (displacementBlend [⟨0, 0, 0, 10⟩, ⟨1, 1, 1, 20⟩]
      [⟨0, 0, 0, 0⟩, ⟨0, 0, 0, 0⟩] 2 1 100 1 (fun _ => 1/2)).getD 1 default
      = ⟨0, 0, 0, 20⟩ := by
    simp only [displacementBlend]
    rw [getD_mapIdx _ _ _ _ default (by norm_num)]
    rw [if_pos (by norm_num)]
    rw [hsrc]
    rfl
  rw [hout, hsrc] at hx
  have : (20 : ℕ) = 10 := congrArg Pixel.a hx
  omega

/-- C3 corrected: in displacement mode with explicit per-pixel draws, a
pre-mutation snapshot of A is read; a destination pixel is updated exactly
when its draw exceeds `1 - mix/100`, an updated pixel receives the
snapshot's R, G and B channels from the displaced clamped source index
while keeping its own alpha, and a pixel whose draw does not exceed the
bar is unchanged. -/
theorem displacement_blend_correct (A B : List Pixel) (w h : ℕ)
    (mixParam scale : ℚ) (draw : ℕ → ℚ) (i : ℕ) (hi : i < A.length) :
    (displacementBlend A B w h mixParam scale draw).length = A.length ∧
    (draw i > 1 - mixParam / 100 →
      ((displacementBlend A B w h mixParam scale draw).getD i default).r
        = (A.getD (dispSrcIndex B w h scale i) default).r ∧
      ((displacementBlend A B w h mixParam scale draw).getD i default).g
        = (A.getD (dispSrcIndex B w h scale i) default).g ∧
      ((displacementBlend A B w h mixParam scale draw).getD i default).b
        = (A.getD (dispSrcIndex B w h scale i) default).b ∧
      ((displacementBlend A B w h mixParam scale draw).getD i default).a
        = (A.getD i default).a) ∧
    (¬ (draw i > 1 - mixParam / 100) →
      (displacementBlend A B w h mixParam scale draw).getD i default
        = A.getD i default) := by
  have hform : displacementBlend A B w h mixParam scale draw
      = List.mapIdx (fun i p =>
          if draw i > 1 - mixParam / 100 then
            let q := A.getD (dispSrcIndex B w h scale i) default
            { r := q.r, g := q.g, b := q.b, a := p.a }
          else p) A := by
    simp only [displacementBlend]
  refine ⟨by rw [hform]; simp, ?_, ?_⟩
  · intro hdraw
    rw [hform, getD_mapIdx _ _ _ _ default hi, if_pos hdraw]
    exact ⟨rfl, rfl, rfl, rfl⟩
  · intro hdraw
    rw [hform, getD_mapIdx _ _ _ _ default hi, if_neg hdraw]

/-- Witness for `displacement_blend_correct` on a concrete 2×1 buffer at
pixel index 1. -/
theorem displacement_blend_correct_witness :
    (displacementBlend [⟨0, 0, 0, 10⟩, ⟨1, 1, 1, 20⟩]
        [⟨0, 0, 0, 0⟩, ⟨0, 0, 0, 0⟩] 2 1 100 1 (fun _ => 1/2)).length
      = ([⟨0, 0, 0, 10⟩, ⟨1, 1, 1, 20⟩] : List Pixel).length ∧
    ((fun _ => (1 : ℚ)/2) 1 > 1 - (100 : ℚ) / 100 →
      ((displacementBlend [⟨0, 0, 0, 10⟩, ⟨1, 1, 1, 20⟩]
          [⟨0, 0, 0, 0⟩, ⟨0, 0, 0, 0⟩] 2 1 100 1 (fun _ => 1/2)).getD 1 default).r
        = (([⟨0, 0, 0, 10⟩, ⟨1, 1, 1, 20⟩] : List Pixel).getD
            (dispSrcIndex [⟨0, 0, 0, 0⟩, ⟨0, 0, 0, 0⟩] 2 1 1 1) default).r ∧
      ((displacementBlend [⟨0, 0, 0, 10⟩, ⟨1, 1, 1, 20⟩]
          [⟨0, 0, 0, 0⟩, ⟨0, 0, 0, 0⟩] 2 1 100 1 (fun _ => 1/2)).getD 1 default).g
        = (([⟨0, 0, 0, 10⟩, ⟨1, 1, 1, 20⟩] : List Pixel).getD
            (dispSrcIndex [⟨0, 0, 0, 0⟩, ⟨0, 0, 0, 0⟩] 2 1 1 1) default).g ∧
      ((displacementBlend [⟨0, 0, 0, 10⟩, ⟨1, 1, 1, 20⟩]
          [⟨0, 0, 0, 0⟩, ⟨0, 0, 0, 0⟩] 2 1 100 1 (fun _ => 1/2)).getD 1 default).b
        = (([⟨0, 0, 0, 10⟩, ⟨1, 1, 1, 20⟩] : List Pixel).getD
            (dispSrcIndex [⟨0, 0, 0, 0⟩, ⟨0, 0, 0, 0⟩] 2 1 1 1) default).b ∧
      ((displacementBlend [⟨0, 0, 0, 10⟩, ⟨1, 1, 1, 20⟩]
          [⟨0, 0, 0, 0⟩, ⟨0, 0, 0, 0⟩] 2 1 100 1 (fun _ => 1/2)).getD 1 default).a
        = (([⟨0, 0, 0, 10⟩, ⟨1, 1, 1, 20⟩] : List Pixel).getD 1 default).a) ∧
    (¬ ((fun _ => (1 : ℚ)/2) 1 > 1 - (100 : ℚ) / 100) →
      (displacementBlend [⟨0, 0, 0, 10⟩, ⟨1, 1, 1, 20⟩]
          [⟨0, 0, 0, 0⟩, ⟨0, 0, 0, 0⟩] 2 1 100 1 (fun _ => 1/2)).getD 1 default
        = ([⟨0, 0, 0, 10⟩, ⟨1, 1, 1, 20⟩] : List Pixel).getD 1 default) :=
  displacement_blend_correct [⟨0, 0, 0, 10⟩, ⟨1, 1, 1, 20⟩]
    [⟨0, 0, 0, 0⟩, ⟨0, 0, 0, 0⟩] 2 1 100 1 (fun _ => 1/2) 1 (by norm_num)

/-- Per-channel rule of the hard-mix branch of `renderBlend` (blend
section lines 272-278): integer average via `>> 1`, compare with the
threshold, push by `mix255` toward white or black, store byte-clamped. -/
def hardMixChannel (av bv : ℕ) (thresh mix255 : ℚ) : ℕ :=
  let c : ℕ := (av + bv) / 2
  if (c : ℚ) > thresh then clampByte (min 255 ((c : ℚ) + mix255))
  else clampByte (max 0 ((c : ℚ) - mix255))

/-- Embedding of the hard-mix branch of `renderBlend` (blend section
lines 270-280); `mix255 = (params.mix/100)·255` and alpha is untouched. -/
def hardMixBlend (A B : List Pixel) (thresh mixParam : ℚ) : List Pixel :=
  let mix255 : ℚ := mixParam / 100 * 255
  List.mapIdx (fun i p =>
    let q := B.getD i default
    { r := hardMixChannel p.r q.r thresh mix255,
      g := hardMixChannel p.g q.g thresh mix255,
      b := hardMixChannel p.b q.b thresh mix255,
      a := p.a }) A

/-- Counterexample to C4 as stated: the code averages with the truncating
shift `(a+b) >> 1`, not the exact average `(a+b)/2`.  With `A.r = 0`,
`B.r = 1`, `threshold = 0`, `mix = 100` the claimed formula gives
`min(255, 0.5 + 255) = 255`, while the code computes the floor average 0,
fails `0 > 0`, and stores `max(0, 0 - 255) = 0`. -/
theorem hard_mix_counterexample :
    ¬ (∀ (A B : List Pixel) (thresh mixParam : ℚ) (i : ℕ), i < A.length →
        (((hardMixBlend A B thresh mixParam).getD i default).r : ℚ)
          = (if (((A.getD i default).r : ℚ) + ((B.getD i default).r : ℚ)) / 2
                > thresh
             then min 255 ((((A.getD i default).r : ℚ)
                + ((B.getD i default).r : ℚ)) / 2 + mixParam * (255/100))
             else max 0 ((((A.getD i default).r : ℚ)
                + ((B.getD i default).r : ℚ)) / 2 - mixParam * (255/100)))) := by
  intro hclaim
  have hx := hclaim [⟨0, 0, 0, 7⟩] [⟨1, 1, 1, 9⟩] 0 100 0 (by norm_num)
  have hout : ((hardMixBlend [⟨0, 0, 0, 7⟩] [⟨1, 1, 1, 9⟩] 0 100).getD 0
      default).r = 0 := by
    simp only [hardMixBlend]
    rw [getD_mapIdx _ _ _ _ default (by norm_num)]
    simp only [hardMixChannel]
    norm_num [clampByte]
  rw [hout] at hx
  norm_num at hx

/-- C4 corrected: per channel the output byte is the byte-clamped store of
`min(255, avg + mix·2.55)` when `avg > threshold` and of
`max(0, avg - mix·2.55)` otherwise, where `avg = ⌊(A+B)/2⌋` is the
truncating integer average `(A+B) >> 1`; alpha is untouched. -/
theorem hard_mix_correct (A B : List Pixel) (thresh mixParam : ℚ) (i : ℕ)
    (hi : i < A.length) :
    (hardMixBlend A B thresh mixParam).length = A.length ∧
    ((hardMixBlend A B thresh mixParam).getD i default).r
      = (if ((((A.getD i default).r + (B.getD i default).r) / 2 : ℕ) : ℚ)
            > thresh
         then clampByte (min 255
            (((((A.getD i default).r + (B.getD i default).r) / 2 : ℕ) : ℚ)
              + mixParam * (255/100)))
         else clampByte (max 0
            (((((A.getD i default).r + (B.getD i default).r) / 2 : ℕ) : ℚ)
              - mixParam * (255/100)))) ∧
    ((hardMixBlend A B thresh mixParam).getD i default).g
      = (if ((((A.getD i default).g + (B.getD i default).g) / 2 : ℕ) : ℚ)
            > thresh
         then clampByte (min 255
            (((((A.getD i default).g + (B.getD i default).g) / 2 : ℕ) : ℚ)
              + mixParam * (255/100)))
         else clampByte (max 0
            (((((A.getD i default).g + (B.getD i default).g) / 2 : ℕ) : ℚ)
              - mixParam * (255/100)))) ∧
    ((hardMixBlend A B thresh mixParam).getD i default).b
      = (if ((((A.getD i default).b + (B.getD i default).b) / 2 : ℕ) : ℚ)
            > thresh
         then clampByte (min 255
            (((((A.getD i default).b + (B.getD i default).b) / 2 : ℕ) : ℚ)
              + mixParam * (255/100)))
         else clampByte (max 0
            (((((A.getD i default).b + (B.getD i default).b) / 2 : ℕ) : ℚ)
              - mixParam * (255/100)))) ∧
    ((hardMixBlend A B thresh mixParam).getD i default).a
      = (A.getD i default).a := by
  have hmix : mixParam / 100 * 255 = mixParam * (255/100) := by ring
  have hform : hardMixBlend A B thresh mixParam
      = List.mapIdx (fun i p =>
          let q := B.getD i default
          { r := hardMixChannel p.r q.r thresh (mixParam * (255/100)),
            g := hardMixChannel p.g q.g thresh (mixParam * (255/100)),
            b := hardMixChannel p.b q.b thresh (mixParam * (255/100)),
            a := p.a }) A := by
    simp only [hardMixBlend, hmix]
  refine ⟨by rw [hform]; simp, ?_, ?_, ?_, ?_⟩ <;>
    rw [hform, getD_mapIdx _ _ _ _ default hi] <;>
    simp only [hardMixChannel]

/-- Witness for `hard_mix_correct` on a concrete one-pixel buffer pair. -/
theorem hard_mix_correct_witness :
    (hardMixBlend [⟨10, 20, 30, 7⟩] [⟨50, 60, 70, 9⟩] 40 50).length
      = ([⟨10, 20, 30, 7⟩] : List Pixel).length ∧
    ((hardMixBlend [⟨10, 20, 30, 7⟩] [⟨50, 60, 70, 9⟩] 40 50).getD 0 default).r
      = (if ((((([⟨10, 20, 30, 7⟩] : List Pixel).getD 0 default).r
            + (([⟨50, 60, 70, 9⟩] : List Pixel).getD 0 default).r) / 2 : ℕ) : ℚ)
            > 40
         then clampByte (min 255
            (((((([⟨10, 20, 30, 7⟩] : List Pixel).getD 0 default).r
              + (([⟨50, 60, 70, 9⟩] : List Pixel).getD 0 default).r) / 2 : ℕ) : ℚ)
              + 50 * (255/100)))
         else clampByte (max 0
            (((((([⟨10, 20, 30, 7⟩] : List Pixel).getD 0 default).r
              + (([⟨50, 60, 70, 9⟩] : List Pixel).getD 0 default).r) / 2 : ℕ) : ℚ)
              - 50 * (255/100)))) ∧
    ((hardMixBlend [⟨10, 20, 30, 7⟩] [⟨50, 60, 70, 9⟩] 40 50).getD 0 default).g
      = (if ((((([⟨10, 20, 30, 7⟩] : List Pixel).getD 0 default).g
            + (([⟨50, 60, 70, 9⟩] : List Pixel).getD 0 default).g) / 2 : ℕ) : ℚ)
            > 40
         then clampByte (min 255
            (((((([⟨10, 20, 30, 7⟩] : List Pixel).getD 0 default).g
              + (([⟨50, 60, 70, 9⟩] : List Pixel).getD 0 default).g) / 2 : ℕ) : ℚ)
              + 50 * (255/100)))
         else clampByte (max 0
            (((((([⟨10, 20, 30, 7⟩] : List Pixel).getD 0 default).g
              + (([⟨50, 60, 70, 9⟩] : List Pixel).getD 0 default).g) / 2 : ℕ) : ℚ)
              - 50 * (255/100)))) ∧
    ((hardMixBlend [⟨10, 20, 30, 7⟩] [⟨50, 60, 70, 9⟩] 40 50).getD 0 default).b
      = (if ((((([⟨10, 20, 30, 7⟩] : List Pixel).getD 0 default).b
            + (([⟨50, 60, 70, 9⟩] : List Pixel).getD 0 default).b) / 2 : ℕ) : ℚ)
            > 40
         then clampByte (min 255
            (((((([⟨10, 20, 30, 7⟩] : List Pixel).getD 0 default).b
              + (([⟨50, 60, 70, 9⟩] : List Pixel).getD 0 default).b) / 2 : ℕ) : ℚ)
              + 50 * (255/100)))
         else clampByte (max 0
            (((((([⟨10, 20, 30, 7⟩] : List Pixel).getD 0 default).b
              + (([⟨50, 60, 70, 9⟩] : List Pixel).getD 0 default).b) / 2 : ℕ) : ℚ)
              - 50 * (255/100)))) ∧
    ((hardMixBlend [⟨10, 20, 30, 7⟩] [⟨50, 60, 70, 9⟩] 40 50).getD 0 default).a
      = (([⟨10, 20, 30, 7⟩] : List Pixel).getD 0 default).a :=
  hard_mix_correct [⟨10, 20, 30, 7⟩] [⟨50, 60, 70, 9⟩] 40 50 0 (by norm_num)

/-- Slice read, `data.subarray(start, start+len)` in pixel units. -/
def subSlice (data : List Pixel) (start len : ℕ) : List Pixel :=
  (data.drop start).take len

/-- Slice write, `data.set(seg, start)` in pixel units; call sites
guarantee `start + seg.length ≤ data.length`. -/
def setSlice (data : List Pixel) (start : ℕ) (seg : List Pixel) :
    List Pixel :=
  data.take start ++ seg ++ data.drop (start + seg.length)

/-- Writing the empty segment changes nothing. -/
theorem setSlice_nil (data : List Pixel) (start : ℕ) :
    setSlice data start [] = data := by
  simp [setSlice]

/-- Length of a slice read. -/
theorem subSlice_length (data : List Pixel) (s l : ℕ) :
    (subSlice data s l).length = min l (data.length - s) := by
  simp [subSlice]

/-- Entry `k < l` of a slice read is entry `s + k` of the buffer. -/
theorem subSlice_getD (data : List Pixel) (s l k : ℕ) (hk : k < l) :
    (subSlice data s l).getD k default = data.getD (s + k) default := by
  simp [subSlice, List.getElem?_take_of_lt hk, List.getElem?_drop]

/-- A slice write inside the buffer preserves the length. -/
theorem setSlice_length (data : List Pixel) (st : ℕ) (seg : List Pixel)
    (hs : st + seg.length ≤ data.length) :
    (setSlice data st seg).length = data.length := by
  simp [setSlice]
  omega

/-- Entries outside the written span are unchanged by a slice write. -/
theorem setSlice_getD_outside (data : List Pixel) (st : ℕ) (seg : List Pixel)
    (hs : st + seg.length ≤ data.length) (j : ℕ)
    (hj : j < st ∨ st + seg.length ≤ j) :
    (setSlice data st seg).getD j default = data.getD j default := by
  have hst : st ≤ data.length := by omega
  have hlt : (data.take st).length = st := by simp; omega
  rcases hj with hj | hj
  · have h1 : j < (data.take st ++ seg).length := by simp; omega
    unfold setSlice
    rw [List.append_assoc] at *
    simp only [List.getD_eq_getElem?_getD]
    rw [List.getElem?_append_left (by rw [hlt]; exact hj),
      List.getElem?_take_of_lt hj]
  · unfold setSlice
    simp only [List.getD_eq_getElem?_getD]
    rw [List.append_assoc,
      List.getElem?_append_right (by rw [hlt]; omega), hlt,
      List.getElem?_append_right (by omega),
      List.getElem?_drop,
      show st + seg.length + (j - st - seg.length) = j from by omega]

/-- Entry `st + k` after a slice write is entry `k` of the segment. -/
theorem setSlice_getD_inside (data : List Pixel) (st : ℕ) (seg : List Pixel)
    (hs : st + seg.length ≤ data.length) (k : ℕ) (hk : k < seg.length) :
    (setSlice data st seg).getD (st + k) default = seg.getD k default := by
  have hlt : (data.take st).length = st := by simp; omega
  unfold setSlice
  simp only [List.getD_eq_getElem?_getD]
  rw [List.append_assoc,
    List.getElem?_append_right (by rw [hlt]; omega), hlt,
    List.getElem?_append_left (by omega), Nat.add_sub_cancel_left]

/-- Embedding of the helper `randomInt` (src/utils/glitchAlgorithms.ts
lines 4-6) applied to one `Math.random()` draw `u`:
`Math.floor(u * (max - min + 1)) + min`. -/
def randomInt (mn mx : ℤ) (u : ℚ) : ℤ :=
  Int.floor (u * ((mx : ℚ) - (mn : ℚ) + 1)) + mn

/-- Geometry of one block of `applyBlockShift` (lines 56-70). -/
structure BlockGeom where
  blockW : ℤ
  blockH : ℤ
  srcX : ℤ
  srcY : ℤ
  destX : ℤ
  destY : ℤ

/-- The six random draws of block `b` (oracle indices `6b .. 6b+5`, in
source order) and the derived clamped destination origin (lines 60-70). -/
def blockGeom (w h : ℕ) (u : ℕ → ℚ) (b : ℕ) : BlockGeom :=
  let maxBlockSize : ℤ := (w : ℤ) / 4
  let blockW := randomInt 10 maxBlockSize (u (6 * b))
  let blockH := randomInt 2 50 (u (6 * b + 1))
  let srcX := randomInt 0 ((w : ℤ) - blockW) (u (6 * b + 2))
  let srcY := randomInt 0 ((h : ℤ) - blockH) (u (6 * b + 3))
  let shiftX := randomInt (-50) 50 (u (6 * b + 4))
  let shiftY := randomInt (-10) 10 (u (6 * b + 5))
  let destX := min ((w : ℤ) - blockW) (max 0 (srcX + shiftX))
  let destY := min ((h : ℤ) - blockH) (max 0 (srcY + shiftY))
  ⟨blockW, blockH, srcX, srcY, destX, destY⟩

/-- Guarded offsets of row `y` of one block (lines 73-84):
`some (srcStart, destStart, len)` in pixel units exactly when the bounds
check `srcStart + len < data.length && destStart + len < data.length &&
srcStart >= 0 && destStart >= 0` passes (`N` the buffer length). -/
def blockRowSpan (w N : ℕ) (g : BlockGeom) (y : ℕ) : Option (ℕ × ℕ × ℕ) :=
  let srcStart : ℤ := (g.srcY + y) * w + g.srcX
  let destStart : ℤ := (g.destY + y) * w + g.destX
  let len : ℤ := g.blockW
  if srcStart + len < (N : ℤ) ∧ destStart + len < (N : ℤ) ∧
      0 ≤ srcStart ∧ 0 ≤ destStart then
    some (srcStart.toNat, destStart.toNat, len.toNat)
  else none

/-- One guarded row copy of one block (lines 81-84):
`data.set(data.subarray(srcStart, srcStart+len), destStart)`. -/
def copyBlockRow (w : ℕ) (g : BlockGeom) (y : ℕ) (data : List Pixel) :
    List Pixel :=
  match blockRowSpan w data.length g y with
  | some (s, d, l) => setSlice data d (subSlice data s l)
  | none => data

/-- Embedding of `applyBlockShift` (lines 53-87): for each of
`floor(intensity/100·30)` blocks, draw the geometry and copy the block
row by row.  The `seed` parameter is accepted, as in the source, and
never read. -/
def applyBlockShift (data : List Pixel) (w h : ℕ) (intensity seed : ℚ)
    (u : ℕ → ℚ) : List Pixel :=
  if intensity = 0 then data
  else
    (List.range (Int.floor (intensity / 100 * 30)).toNat).foldl
      (fun d b =>
        let g := blockGeom w h u b
        (List.range g.blockH.toNat).foldl
          (fun d2 y => copyBlockRow w g y d2) d)
      data

/-- Destination spans `(destStart, len)` of the guarded row writes of one
block over a buffer of length `N`. -/
def rowWrites (w N : ℕ) (g : BlockGeom) : List (ℕ × ℕ) :=
  (List.range g.blockH.toNat).filterMap (fun y =>
    match blockRowSpan w N g y with
    | some (_, d, l) => some (d, l)
    | none => none)

/-- Destination spans of all guarded row writes of the whole pass. -/
def blockShiftWrites (w h N : ℕ) (intensity : ℚ) (u : ℕ → ℚ) :
    List (ℕ × ℕ) :=
  if intensity = 0 then []
  else ((List.range (Int.floor (intensity / 100 * 30)).toNat).map
    (fun b => rowWrites w N (blockGeom w h u b))).flatten

/-- A guarded row span with positive length lies strictly inside the
buffer on both the source and the destination side. -/
theorem blockRowSpan_facts (w N : ℕ) (g : BlockGeom) (y : ℕ) (s d l : ℕ)
    (hspan : blockRowSpan w N g y = some (s, d, l)) (hl : 0 < l) :
    s + l < N ∧ d + l < N := by
  simp only [blockRowSpan] at hspan
  split at hspan
  next hguard =>
    obtain ⟨h1, h2, h3, h4⟩ := hguard
    simp only [Option.some.injEq, Prod.mk.injEq] at hspan
    obtain ⟨hs, hd, hl2⟩ := hspan
    subst hs
    subst hd
    subst hl2
    constructor <;> omega
  next => simp at hspan

/-- A row copy never changes the buffer length. -/
theorem copyBlockRow_length (w : ℕ) (g : BlockGeom) (y : ℕ)
    (data : List Pixel) :
    (copyBlockRow w g y data).length = data.length := by
  unfold copyBlockRow
  cases hspan : blockRowSpan w data.length g y with
  | none => rfl
  | some sdl =>
    obtain ⟨s, d, l⟩ := sdl
    show (setSlice data d (subSlice data s l)).length = data.length
    by_cases hl : 0 < l
    · obtain ⟨hs, hd⟩ := blockRowSpan_facts w data.length g y s d l hspan hl
      have hseg : (subSlice data s l).length = l := by
        rw [subSlice_length]; omega
      rw [setSlice_length]
      rw [hseg]; omega
    · have hl0 : l = 0 := by omega
      subst hl0
      rw [show subSlice data s 0 = [] from by simp [subSlice], setSlice_nil]

/-- A row copy leaves every index outside its guarded destination span
unchanged. -/
theorem copyBlockRow_getD_untouched (w : ℕ) (g : BlockGeom) (y : ℕ)
    (data : List Pixel) (j : ℕ)
    (hout : ∀ s d l, blockRowSpan w data.length g y = some (s, d, l) →
      j < d ∨ d + l ≤ j) :
    (copyBlockRow w g y data).getD j default = data.getD j default := by
  unfold copyBlockRow
  cases hspan : blockRowSpan w data.length g y with
  | none => rfl
  | some sdl =>
    obtain ⟨s, d, l⟩ := sdl
    show (setSlice data d (subSlice data s l)).getD j default
      = data.getD j default
    have hj := hout s d l hspan
    by_cases hl : 0 < l
    · obtain ⟨hs, hd⟩ := blockRowSpan_facts w data.length g y s d l hspan hl
      have hseg : (subSlice data s l).length = l := by
        rw [subSlice_length]; omega
      apply setSlice_getD_outside
      · rw [hseg]; omega
      · rw [hseg]; omega
    · have hl0 : l = 0 := by omega
      subst hl0
      rw [show subSlice data s 0 = [] from by simp [subSlice], setSlice_nil]

/-- Folding row copies preserves the buffer length. -/
theorem foldl_copyBlockRow_length (w : ℕ) (g : BlockGeom) (ys : List ℕ)
    (data : List Pixel) :
    (ys.foldl (fun d2 y => copyBlockRow w g y d2) data).length
      = data.length := by
  induction ys generalizing data with
  | nil => rfl
  | cons y ys ih =>
    rw [List.foldl_cons, ih, copyBlockRow_length]

/-- Folding row copies leaves untouched indices unchanged. -/
theorem foldl_copyBlockRow_untouched (w N : ℕ) (g : BlockGeom) (ys : List ℕ)
    (data : List Pixel) (hN : data.length = N) (j : ℕ)
    (hj : ∀ y ∈ ys, ∀ s d l, blockRowSpan w N g y = some (s, d, l) →
      j < d ∨ d + l ≤ j) :
    (ys.foldl (fun d2 y => copyBlockRow w g y d2) data).getD j default
      = data.getD j default := by
  induction ys generalizing data with
  | nil => rfl
  | cons y ys ih =>
    rw [List.foldl_cons]
    rw [ih (copyBlockRow w g y data)
      (by rw [copyBlockRow_length, hN])
      (fun y2 hy2 => hj y2 (List.mem_cons_of_mem _ hy2))]
    apply copyBlockRow_getD_untouched
    intro s d l hspan
    rw [hN] at hspan
    exact hj y (List.mem_cons_self _ _) s d l hspan

/-- Folding whole blocks preserves the buffer length. -/
theorem foldl_blocks_length (w h : ℕ) (u : ℕ → ℚ) (bs : List ℕ)
    (data : List Pixel) :
    (bs.foldl (fun d b =>
      (List.range (blockGeom w h u b).blockH.toNat).foldl
        (fun d2 y => copyBlockRow w (blockGeom w h u b) y d2) d) data).length
      = data.length := by
  induction bs generalizing data with
  | nil => rfl
  | cons b bs ih =>
    rw [List.foldl_cons, ih, foldl_copyBlockRow_length]

/-- Folding whole blocks leaves indices untouched by every guarded row
write unchanged. -/
theorem foldl_blocks_untouched (w h N : ℕ) (u : ℕ → ℚ) (bs : List ℕ)
    (data : List Pixel) (hN : data.length = N) (j : ℕ)
    (hj : ∀ b ∈ bs, ∀ dl ∈ rowWrites w N (blockGeom w h u b),
      j < dl.1 ∨ dl.1 + dl.2 ≤ j) :
    (bs.foldl (fun d b =>
      (List.range (blockGeom w h u b).blockH.toNat).foldl
        (fun d2 y => copyBlockRow w (blockGeom w h u b) y d2) d) data).getD j
        default
      = data.getD j default := by
  induction bs generalizing data with
  | nil => rfl
  | cons b bs ih =>
    rw [List.foldl_cons]
    rw [ih _ (by rw [foldl_copyBlockRow_length, hN])
      (fun b2 hb2 => hj b2 (List.mem_cons_of_mem _ hb2))]
    apply foldl_copyBlockRow_untouched w N _ _ data hN j
    intro y hy s d l hspan
    have hmem : (d, l) ∈ rowWrites w N (blockGeom w h u b) := by
      unfold rowWrites
      apply List.mem_filterMap.mpr
      exact ⟨y, hy, by rw [hspan]⟩
    exact hj b (List.mem_cons_self _ _) (d, l) hmem

/-- Every guarded write span stays inside the raster. -/
theorem blockShiftWrites_bounds (w h : ℕ) (intensity : ℚ) (u : ℕ → ℚ)
    (dl : ℕ × ℕ) (hmem : dl ∈ blockShiftWrites w h (w * h) intensity u)
    (k : ℕ) (hk : k < dl.2) (hw : 0 < w) :
    dl.1 + k < w * h ∧ (dl.1 + k) % w < w ∧ (dl.1 + k) / w < h := by
  obtain ⟨d1, l1⟩ := dl
  unfold blockShiftWrites at hmem
  split at hmem
  · simp at hmem
  · rw [List.mem_flatten] at hmem
    obtain ⟨lst, hlst, hdl⟩ := hmem
    rw [List.mem_map] at hlst
    obtain ⟨b, _, rfl⟩ := hlst
    unfold rowWrites at hdl
    rw [List.mem_filterMap] at hdl
    obtain ⟨y, _, hy⟩ := hdl
    cases hspan : blockRowSpan w (w * h) (blockGeom w h u b) y with
    | none => rw [hspan] at hy; simp at hy
    | some sdl =>
      obtain ⟨s, d, l⟩ := sdl
      rw [hspan] at hy
      simp only [Option.some.injEq, Prod.mk.injEq] at hy
      obtain ⟨hd, hl⟩ := hy
      subst hd
      subst hl
      simp only at hk
      have hfacts := blockRowSpan_facts w (w * h) (blockGeom w h u b) y
        s d l hspan (by omega)
      refine ⟨by omega, Nat.mod_lt _ hw, ?_⟩
      rw [Nat.div_lt_iff_lt_mul hw, Nat.mul_comm h w]
      omega

/-- C5: for every buffer of dimensions `W × H` with `W, H ≥ 1` and every
sequence of random draws, every guarded write of the block-displacement
pass lands at a pixel index inside `[0, W·H)` — hence at coordinates in
`[0,W) × [0,H)` — the pass preserves the buffer length, and indices
outside every written span are unchanged. -/
theorem block_shift_safe (data : List Pixel) (w h : ℕ) (intensity seed : ℚ)
    (u : ℕ → ℚ) (hw : 0 < w) (hh : 0 < h) (hlen : data.length = w * h) :
    (∀ dl ∈ blockShiftWrites w h (w * h) intensity u, ∀ k, k < dl.2 →
      dl.1 + k < w * h ∧ (dl.1 + k) % w < w ∧ (dl.1 + k) / w < h) ∧
    (applyBlockShift data w h intensity seed u).length = data.length ∧
    (∀ j, j < data.length →
      (∀ dl ∈ blockShiftWrites w h (w * h) intensity u,
        j < dl.1 ∨ dl.1 + dl.2 ≤ j) →
      (applyBlockShift data w h intensity seed u).getD j default
        = data.getD j default) := by
  refine ⟨?_, ?_, ?_⟩
  · intro dl hmem k hk
    exact blockShiftWrites_bounds w h intensity u dl hmem k hk hw
  · unfold applyBlockShift
    split
    · rfl
    · exact foldl_blocks_length w h u _ data
  · intro j hjlen hj
    unfold applyBlockShift
    by_cases h0 : intensity = 0
    · rw [if_pos h0]
    · rw [if_neg h0]
      apply foldl_blocks_untouched w h (w * h) u _ data hlen j
      intro b hb dl hdl
      apply hj dl
      unfold blockShiftWrites
      rw [if_neg h0]
      rw [List.mem_flatten]
      exact ⟨rowWrites w (w * h) (blockGeom w h u b),
        List.mem_map.mpr ⟨b, hb, rfl⟩, hdl⟩

/-- Witness for `block_shift_safe` on a 1×1 buffer with intensity 50. -/
theorem block_shift_safe_witness :
    (∀ dl ∈ blockShiftWrites 1 1 (1 * 1) 50 (fun _ => 0), ∀ k, k < dl.2 →
      dl.1 + k < 1 * 1 ∧ (dl.1 + k) % 1 < 1 ∧ (dl.1 + k) / 1 < 1) ∧
    (applyBlockShift [⟨0, 0, 0, 0⟩] 1 1 50 0 (fun _ => 0)).length
      = ([⟨0, 0, 0, 0⟩] : List Pixel).length ∧
    (∀ j, j < ([⟨0, 0, 0, 0⟩] : List Pixel).length →
      (∀ dl ∈ blockShiftWrites 1 1 (1 * 1) 50 (fun _ => 0),
        j < dl.1 ∨ dl.1 + dl.2 ≤ j) →
      (applyBlockShift [⟨0, 0, 0, 0⟩] 1 1 50 0 (fun _ => 0)).getD j default
        = ([⟨0, 0, 0, 0⟩] : List Pixel).getD j default) :=
  block_shift_safe [⟨0, 0, 0, 0⟩] 1 1 50 0 (fun _ => 0)
    (by norm_num) (by norm_num) rfl

/-- Brightness key of the row-sort comparator (lines 145-147): R+G+B. -/
def brightness3 (p : Pixel) : ℕ := p.r + p.g + p.b

/-- The row sort of `applyPixelSort` (lines 137-159).  The source stably
sorts the index array `rowIndices` with comparator `brA - brB`
(`Array.prototype.sort` is stable) and rebuilds the row through `tempRow`;
on pixel values this is exactly the stable merge sort by ascending
brightness. -/
def sortRow (row : List Pixel) : List Pixel :=
  row.mergeSort (fun p q => brightness3 p ≤ brightness3 q)

/-- One selected-row rewrite (lines 124-162): read the `w` pixels at
`rowStart = y·w`, sort, write back in place. -/
def sortRowAt (data : List Pixel) (w y : ℕ) : List Pixel :=
  setSlice data (y * w) (sortRow (subSlice data (y * w) w))

/-- Number of sorted rows, `Math.floor(height * (threshold / 100))`
(line 121). -/
def rowsToSort (h : ℕ) (threshold : ℚ) : ℤ :=
  Int.floor ((h : ℚ) * (threshold / 100))

/-- Row chosen at iteration `r`: `randomInt(0, height - 1)` (line 124). -/
def chosenRow (h : ℕ) (u : ℕ → ℚ) (r : ℕ) : ℕ :=
  (randomInt 0 ((h : ℤ) - 1) (u r)).toNat

/-- Embedding of `applyPixelSort` (src/utils/glitchAlgorithms.ts lines
118-164). -/
def applyPixelSort (data : List Pixel) (w h : ℕ) (threshold : ℚ)
    (u : ℕ → ℚ) : List Pixel :=
  if threshold = 0 then data
  else
    (List.range (rowsToSort h threshold).toNat).foldl
      (fun d r => sortRowAt d w (chosenRow h u r)) data

/-- A draw in `[0,1)` makes `randomInt(0, h-1)` a valid row index. -/
theorem chosenRow_lt (h : ℕ) (u : ℕ → ℚ) (r : ℕ)
    (hu0 : 0 ≤ u r) (hu1 : u r < 1) (hh : 0 < h) : chosenRow h u r < h := by
  unfold chosenRow randomInt
  have harg : (((h : ℤ) - 1 : ℤ) : ℚ) - ((0 : ℤ) : ℚ) + 1 = (h : ℚ) := by
    push_cast; ring
  rw [harg]
  have hmul : u r * (h : ℚ) < (h : ℚ) := by
    have hpos : (0 : ℚ) < (h : ℚ) := by exact_mod_cast hh
    calc u r * (h : ℚ) < 1 * (h : ℚ) := by
          exact mul_lt_mul_of_pos_right hu1 hpos
    _ = (h : ℚ) := one_mul _
  have hlt : ⌊u r * (h : ℚ)⌋ < (h : ℤ) := by
    rw [Int.floor_lt]
    exact_mod_cast hmul
  have hge : 0 ≤ ⌊u r * (h : ℚ)⌋ := by
    apply Int.floor_nonneg.mpr
    positivity
  omega

/-- Pointwise description of equality of pixel lists through `getD`. -/
theorem list_eq_of_getD (l1 l2 : List Pixel) (hlen : l1.length = l2.length)
    (h : ∀ k, k < l1.length → l1.getD k default = l2.getD k default) :
    l1 = l2 := by
  apply List.ext_getElem hlen
  intro i h1 h2
  have hx := h i h1
  rwa [List.getD_eq_getElem _ _ h1, List.getD_eq_getElem _ _ h2] at hx

/-- A full row span fits in the raster. -/
theorem row_span_le (w h y : ℕ) (hy : y < h) : y * w + w ≤ w * h := by
  calc y * w + w = (y + 1) * w := by ring
  _ ≤ h * w := Nat.mul_le_mul_right w hy
  _ = w * h := Nat.mul_comm h w

/-- Length of a full row slice. -/
theorem subSlice_length_row (data : List Pixel) (w h y : ℕ) (hy : y < h)
    (hlen : data.length = w * h) : (subSlice data (y * w) w).length = w := by
  have := row_span_le w h y hy
  rw [subSlice_length]
  omega

/-- Sorting a row keeps its length. -/
theorem sortRow_length (row : List Pixel) :
    (sortRow row).length = row.length := by
  simp [sortRow]

/-- Sorting a row permutes its pixels. -/
theorem sortRow_perm (row : List Pixel) : (sortRow row).Perm row :=
  List.mergeSort_perm row _

/-- Sorting an already sorted row changes nothing. -/
theorem sortRow_idem (row : List Pixel) :
    sortRow (sortRow row) = sortRow row := by
  unfold sortRow
  apply List.mergeSort_of_sorted
  apply List.sorted_mergeSort
  · intro a b c hab hbc
    simp only [decide_eq_true_eq] at hab hbc ⊢
    omega
  · intro a b
    simp only [Bool.or_eq_true, decide_eq_true_eq]
    omega

/-- A row rewrite keeps the buffer length. -/
theorem sortRowAt_length (data : List Pixel) (w h y : ℕ) (hy : y < h)
    (hlen : data.length = w * h) :
    (sortRowAt data w y).length = data.length := by
  have hspan := row_span_le w h y hy
  unfold sortRowAt
  rw [setSlice_length]
  rw [sortRow_length, subSlice_length_row data w h y hy hlen, hlen]
  omega

/-- After rewriting row `y`, row `y` reads back as the sorted row. -/
theorem sortRowAt_row_self (data : List Pixel) (w h y : ℕ) (hy : y < h)
    (hlen : data.length = w * h) :
    subSlice (sortRowAt data w y) (y * w) w
      = sortRow (subSlice data (y * w) w) := by
  have hspan := row_span_le w h y hy
  have hseg : (sortRow (subSlice data (y * w) w)).length = w := by
    rw [sortRow_length, subSlice_length_row data w h y hy hlen]
  have hslen : (sortRowAt data w y).length = data.length :=
    sortRowAt_length data w h y hy hlen
  apply list_eq_of_getD
  · rw [subSlice_length, hslen, hlen, hseg]
    omega
  · intro k hk
    have hkw : k < w := by
      rw [subSlice_length, hslen, hlen] at hk
      omega
    rw [subSlice_getD _ _ _ _ hkw]
    unfold sortRowAt
    rw [setSlice_getD_inside _ _ _ (by rw [hseg, hlen]; omega) k
      (by rw [hseg]; exact hkw)]

/-- Rewriting row `y0` leaves any other row `y` unchanged. -/
theorem sortRowAt_row_other (data : List Pixel) (w h y y0 : ℕ) (hy : y < h)
    (hy0 : y0 < h) (hne : y ≠ y0) (hlen : data.length = w * h) :
    subSlice (sortRowAt data w y0) (y * w) w = subSlice data (y * w) w := by
  have hspan := row_span_le w h y hy
  have hspan0 := row_span_le w h y0 hy0
  have hseg : (sortRow (subSlice data (y0 * w) w)).length = w := by
    rw [sortRow_length, subSlice_length_row data w h y0 hy0 hlen]
  have hslen : (sortRowAt data w y0).length = data.length :=
    sortRowAt_length data w h y0 hy0 hlen
  apply list_eq_of_getD
  · rw [subSlice_length, subSlice_length, hslen]
  · intro k hk
    have hkw : k < w := by
      rw [subSlice_length, hslen, hlen] at hk
      omega
    rw [subSlice_getD _ _ _ _ hkw, subSlice_getD _ _ _ _ hkw]
    unfold sortRowAt
    apply setSlice_getD_outside
    · rw [hseg, hlen]
      omega
    · rw [hseg]
      rcases Nat.lt_or_ge y y0 with hlt | hge
      · left
        calc y * w + k < y * w + w := by omega
        _ = (y + 1) * w := by ring
        _ ≤ y0 * w := Nat.mul_le_mul_right w hlt
      · right
        have hgt : y0 + 1 ≤ y := by omega
        calc y0 * w + w = (y0 + 1) * w := by ring
        _ ≤ y * w := Nat.mul_le_mul_right w hgt
        _ ≤ y * w + k := by omega

/-- Folding row rewrites preserves the buffer length. -/
theorem foldl_sortRowAt_length (w h : ℕ) (ys : List ℕ) (data : List Pixel)
    (hys : ∀ y2 ∈ ys, y2 < h) (hlen : data.length = w * h) :
    (ys.foldl (fun d yr => sortRowAt d w yr) data).length = data.length := by
  induction ys generalizing data with
  | nil => rfl
  | cons y0 ys ih =>
    have h0 : y0 < h := hys y0 (List.mem_cons_self _ _)
    have hlen2 : (sortRowAt data w y0).length = w * h := by
      rw [sortRowAt_length data w h y0 h0 hlen, hlen]
    rw [List.foldl_cons,
      ih (sortRowAt data w y0)
        (fun y2 h2 => hys y2 (List.mem_cons_of_mem _ h2)) hlen2,
      sortRowAt_length data w h y0 h0 hlen]

/-- After folding row rewrites, a row reads back sorted exactly when it
was chosen at least once, and unchanged otherwise. -/
theorem foldl_sortRowAt_rows (w h : ℕ) (ys : List ℕ) (data : List Pixel)
    (hys : ∀ y2 ∈ ys, y2 < h) (hlen : data.length = w * h) (y : ℕ)
    (hy : y < h) :
    subSlice (ys.foldl (fun d yr => sortRowAt d w yr) data) (y * w) w
      = if y ∈ ys then sortRow (subSlice data (y * w) w)
        else subSlice data (y * w) w := by
  induction ys generalizing data with
  | nil => simp
  | cons y0 ys ih =>
    have h0 : y0 < h := hys y0 (List.mem_cons_self _ _)
    have hlen2 : (sortRowAt data w y0).length = w * h := by
      rw [sortRowAt_length data w h y0 h0 hlen, hlen]
    rw [List.foldl_cons,
      ih (sortRowAt data w y0)
        (fun y2 h2 => hys y2 (List.mem_cons_of_mem _ h2)) hlen2]
    by_cases hyy : y = y0
    · subst hyy
      rw [sortRowAt_row_self data w h y hy hlen]
      by_cases hmem : y ∈ ys
      · rw [if_pos hmem, if_pos (List.mem_cons_self _ _), sortRow_idem]
      · rw [if_neg hmem, if_pos (List.mem_cons_self _ _)]
    · rw [sortRowAt_row_other data w h y y0 hy h0 hyy hlen]
      by_cases hmem : y ∈ ys
      · rw [if_pos hmem, if_pos (List.mem_cons_of_mem _ hmem)]
      · rw [if_neg hmem, if_neg (by simp [List.mem_cons, hmem, hyy])]

/-- C6: the row pixel-sort pass performs `floor(H·pixelSort/100)`
iterations whose chosen rows are valid indices below `H`; a row chosen at
least once reads back as the stable sort of its original pixels by
ascending brightness `R+G+B`, and a row never chosen is unchanged. -/
theorem pixel_sort_selected_rows (data : List Pixel) (w h : ℕ) (t : ℚ)
    (u : ℕ → ℚ) (hu : ∀ k, 0 ≤ u k ∧ u k < 1) (hh : 0 < h)
    (hlen : data.length = w * h) :
    (applyPixelSort data w h t u).length = data.length ∧
    (∀ r, chosenRow h u r < h) ∧
    (∀ y, y < h →
      ((∃ r, r < (rowsToSort h t).toNat ∧ chosenRow h u r = y) →
        subSlice (applyPixelSort data w h t u) (y * w) w
          = sortRow (subSlice data (y * w) w)) ∧
      ((¬ ∃ r, r < (rowsToSort h t).toNat ∧ chosenRow h u r = y) →
        subSlice (applyPixelSort data w h t u) (y * w) w
          = subSlice data (y * w) w)) := by
  have hchoice : ∀ r, chosenRow h u r < h :=
    fun r => chosenRow_lt h u r (hu r).1 (hu r).2 hh
  have hfold : applyPixelSort data w h t u
      = if t = 0 then data
        else ((List.range (rowsToSort h t).toNat).map (chosenRow h u)).foldl
          (fun d yr => sortRowAt d w yr) data := by
    unfold applyPixelSort
    by_cases h0 : t = 0
    · rw [if_pos h0, if_pos h0]
    · rw [if_neg h0, if_neg h0, List.foldl_map]
  have hyslt : ∀ y2 ∈ (List.range (rowsToSort h t).toNat).map (chosenRow h u),
      y2 < h := by
    intro y2 hy2
    obtain ⟨r, _, rfl⟩ := List.mem_map.mp hy2
    exact hchoice r
  have hsel : ∀ y,
      (y ∈ (List.range (rowsToSort h t).toNat).map (chosenRow h u)) ↔
      (∃ r, r < (rowsToSort h t).toNat ∧ chosenRow h u r = y) := by
    intro y
    rw [List.mem_map]
    constructor
    · rintro ⟨r, hr, hry⟩
      exact ⟨r, List.mem_range.mp hr, hry⟩
    · rintro ⟨r, hr, hry⟩
      exact ⟨r, List.mem_range.mpr hr, hry⟩
  refine ⟨?_, hchoice, ?_⟩
  · rw [hfold]
    split
    · rfl
    · exact foldl_sortRowAt_length w h _ data hyslt hlen
  · intro y hy
    constructor
    · intro hex
      have hmem := (hsel y).mpr hex
      rw [hfold]
      by_cases h0 : t = 0
      · exfalso
        obtain ⟨r, hr, _⟩ := hex
        rw [h0] at hr
        simp [rowsToSort] at hr
      · rw [if_neg h0,
          foldl_sortRowAt_rows w h _ data hyslt hlen y hy, if_pos hmem]
    · intro hnot
      have hmem : y ∉ (List.range (rowsToSort h t).toNat).map (chosenRow h u) :=
        fun hmem => hnot ((hsel y).mp hmem)
      rw [hfold]
      by_cases h0 : t = 0
      · rw [if_pos h0]
      · rw [if_neg h0,
          foldl_sortRowAt_rows w h _ data hyslt hlen y hy, if_neg hmem]

/-- Witness for `pixel_sort_selected_rows` on a 1×2 buffer with
`pixelSort = 50`. -/
theorem pixel_sort_selected_rows_witness :
    (applyPixelSort [⟨5, 5, 5, 1⟩, ⟨0, 0, 0, 2⟩] 1 2 50 (fun _ => 0)).length
      = ([⟨5, 5, 5, 1⟩, ⟨0, 0, 0, 2⟩] : List Pixel).length ∧
    (∀ r, chosenRow 2 (fun _ => 0) r < 2) ∧
    (∀ y, y < 2 →
      ((∃ r, r < (rowsToSort 2 50).toNat ∧ chosenRow 2 (fun _ => 0) r = y) →
        subSlice (applyPixelSort [⟨5, 5, 5, 1⟩, ⟨0, 0, 0, 2⟩] 1 2 50
            (fun _ => 0)) (y * 1) 1
          = sortRow (subSlice [⟨5, 5, 5, 1⟩, ⟨0, 0, 0, 2⟩] (y * 1) 1)) ∧
      ((¬ ∃ r, r < (rowsToSort 2 50).toNat ∧ chosenRow 2 (fun _ => 0) r = y) →
        subSlice (applyPixelSort [⟨5, 5, 5, 1⟩, ⟨0, 0, 0, 2⟩] 1 2 50
            (fun _ => 0)) (y * 1) 1
          = subSlice [⟨5, 5, 5, 1⟩, ⟨0, 0, 0, 2⟩] (y * 1) 1)) :=
  pixel_sort_selected_rows [⟨5, 5, 5, 1⟩, ⟨0, 0, 0, 2⟩] 1 2 50 (fun _ => 0)
    (fun _ => ⟨le_rfl, by norm_num⟩) (by norm_num) rfl

/-- A row rewrite permutes the buffer (the sorted row replaces the
original row in place). -/
theorem sortRowAt_perm (data : List Pixel) (w h y : ℕ) (hy : y < h)
    (hlen : data.length = w * h) : (sortRowAt data w y).Perm data := by
  have hspan := row_span_le w h y hy
  have hseg : (sortRow (subSlice data (y * w) w)).length = w := by
    rw [sortRow_length, subSlice_length_row data w h y hy hlen]
  have hsub : subSlice data (y * w) w ++ data.drop (y * w + w)
      = data.drop (y * w) := by
    unfold subSlice
    rw [show data.drop (y * w + w) = (data.drop (y * w)).drop w from by
      rw [List.drop_drop]]
    exact List.take_append_drop w (data.drop (y * w))
  have hdecomp : data
      = data.take (y * w) ++ (subSlice data (y * w) w
        ++ data.drop (y * w + w)) := by
    rw [hsub, List.take_append_drop]
  unfold sortRowAt setSlice
  rw [hseg]
  conv_rhs => rw [hdecomp]
  rw [List.append_assoc]
  exact List.Perm.append_left _
    (List.Perm.append_right _ (sortRow_perm (subSlice data (y * w) w)))

/-- Folding row rewrites permutes the buffer. -/
theorem foldl_sortRowAt_perm (w h : ℕ) (ys : List ℕ) (data : List Pixel)
    (hys : ∀ y2 ∈ ys, y2 < h) (hlen : data.length = w * h) :
    (ys.foldl (fun d yr => sortRowAt d w yr) data).Perm data := by
  induction ys generalizing data with
  | nil => exact List.Perm.refl data
  | cons y0 ys ih =>
    have h0 : y0 < h := hys y0 (List.mem_cons_self _ _)
    have hlen2 : (sortRowAt data w y0).length = w * h := by
      rw [sortRowAt_length data w h y0 h0 hlen, hlen]
    rw [List.foldl_cons]
    exact (ih (sortRowAt data w y0)
      (fun y2 h2 => hys y2 (List.mem_cons_of_mem _ h2)) hlen2).trans
      (sortRowAt_perm data w h y0 h0 hlen)

/-- C10: for every `pixelSort` value and every sequence of in-range row
draws, the pass preserves the buffer length, the whole buffer is a
permutation of the original, and every row of the output is a permutation
of that same row of the input (pixels move only within their row, as
whole RGBA units). -/
theorem pixel_sort_permutation (data : List Pixel) (w h : ℕ) (t : ℚ)
    (u : ℕ → ℚ) (hu : ∀ k, 0 ≤ u k ∧ u k < 1) (hh : 0 < h)
    (hlen : data.length = w * h) :
    (applyPixelSort data w h t u).length = data.length ∧
    (applyPixelSort data w h t u).Perm data ∧
    (∀ y, y < h →
      (subSlice (applyPixelSort data w h t u) (y * w) w).Perm
        (subSlice data (y * w) w)) := by
  have hchoice : ∀ r, chosenRow h u r < h :=
    fun r => chosenRow_lt h u r (hu r).1 (hu r).2 hh
  have hfold : applyPixelSort data w h t u
      = if t = 0 then data
        else ((List.range (rowsToSort h t).toNat).map (chosenRow h u)).foldl
          (fun d yr => sortRowAt d w yr) data := by
    unfold applyPixelSort
    by_cases h0 : t = 0
    · rw [if_pos h0, if_pos h0]
    · rw [if_neg h0, if_neg h0, List.foldl_map]
  have hyslt : ∀ y2 ∈ (List.range (rowsToSort h t).toNat).map (chosenRow h u),
      y2 < h := by
    intro y2 hy2
    obtain ⟨r, _, rfl⟩ := List.mem_map.mp hy2
    exact hchoice r
  refine ⟨?_, ?_, ?_⟩
  · rw [hfold]
    split
    · rfl
    · exact foldl_sortRowAt_length w h _ data hyslt hlen
  · rw [hfold]
    split
    · exact List.Perm.refl data
    · exact foldl_sortRowAt_perm w h _ data hyslt hlen
  · intro y hy
    rw [hfold]
    split
    · exact List.Perm.refl _
    · rw [foldl_sortRowAt_rows w h _ data hyslt hlen y hy]
      split
      · exact sortRow_perm _
      · exact List.Perm.refl _

/-- Witness for `pixel_sort_permutation` on a 2×1 buffer with
`pixelSort = 100`. -/
theorem pixel_sort_permutation_witness :
    (applyPixelSort [⟨9, 9, 9, 3⟩, ⟨1, 1, 1, 4⟩] 2 1 100 (fun _ => 0)).length
      = ([⟨9, 9, 9, 3⟩, ⟨1, 1, 1, 4⟩] : List Pixel).length ∧
    (applyPixelSort [⟨9, 9, 9, 3⟩, ⟨1, 1, 1, 4⟩] 2 1 100 (fun _ => 0)).Perm
      [⟨9, 9, 9, 3⟩, ⟨1, 1, 1, 4⟩] ∧
    (∀ y, y < 1 →
      (subSlice (applyPixelSort [⟨9, 9, 9, 3⟩, ⟨1, 1, 1, 4⟩] 2 1 100
          (fun _ => 0)) (y * 2) 2).Perm
        (subSlice [⟨9, 9, 9, 3⟩, ⟨1, 1, 1, 4⟩] (y * 2) 2)) :=
  pixel_sort_permutation [⟨9, 9, 9, 3⟩, ⟨1, 1, 1, 4⟩] 2 1 100 (fun _ => 0)
    (fun _ => ⟨le_rfl, by norm_num⟩) (by norm_num) rfl

/-- Per-pixel body of a darkened scanline row (lines 102-112): the three
color channels are scaled by `factor` (each store byte-clamped); then,
when the chance draw is below `noiseChance`, a common noise value
`(draw - 0.5)·50` is added to each channel (stores again byte-clamped);
alpha untouched. -/
def scanlinePixel (factor noiseChance : ℚ) (uc un : ℚ) (p : Pixel) : Pixel :=
  let p1 : Pixel := { r := clampByte ((p.r : ℚ) * factor),
                      g := clampByte ((p.g : ℚ) * factor),
                      b := clampByte ((p.b : ℚ) * factor), a := p.a }
  if uc < noiseChance then
    let noise := (un - 1/2) * 50
    { r := clampByte ((p1.r : ℚ) + noise),
      g := clampByte ((p1.g : ℚ) + noise),
      b := clampByte ((p1.b : ℚ) + noise), a := p1.a }
  else p1

/-- Embedding of `applyScanlines` (src/utils/glitchAlgorithms.ts lines
89-116): rows with `y % lineSkip === 0` are darkened and noised; `uc`/`un`
are the chance and noise draw oracles indexed by pixel position.
`Int.tmod` is the JS remainder on the nonnegative row index, and the
`lineSkip ≠ 0` conjunct reflects that `y % 0` is `NaN` in JS, which never
compares equal to 0. -/
def applyScanlines (data : List Pixel) (w h : ℕ) (intensity : ℚ)
    (uc un : ℕ → ℚ) : List Pixel :=
  if intensity = 0 then data
  else
    let lineSkip : ℤ := 2 + Int.floor ((10 - intensity) / 2)
    let factor : ℚ := 1/2 + (10 - intensity) / 20
    let noiseChance : ℚ := intensity * (1/100)
    List.mapIdx (fun i p =>
      if lineSkip ≠ 0 ∧ Int.tmod ((i / w : ℕ) : ℤ) lineSkip = 0 then
        scanlinePixel factor noiseChance (uc i) (un i) p
      else p) data

/-- Glitch parameter record (src/types.ts `GlitchParams`); `rgbShift` is
the integer pixel offset of the channel-shift pass. -/
structure GlitchParams where
  amount : ℚ
  seed : ℚ
  iterations : ℚ
  quality : ℚ
  rgbShift : ℕ
  blockShift : ℚ
  scanlines : ℚ
  pixelSort : ℚ

/-- Embedding of `processImage` (src/utils/glitchAlgorithms.ts lines
166-182): the four passes in source order — pixel sort, block shift,
channel shift, scanlines — with explicit draw oracles for each pass. -/
def processImage (data : List Pixel) (w h : ℕ) (params : GlitchParams)
    (uSort uBlock uChance uNoise : ℕ → ℚ) : List Pixel :=
  applyScanlines
    (applyRGBShift
      (applyBlockShift
        (applyPixelSort data w h params.pixelSort uSort)
        w h params.blockShift params.seed uBlock)
      w h params.rgbShift)
    w h params.scanlines uChance uNoise

/-- C8: the pipeline output does not depend on the seed parameter: two
`GlitchParams` differing only in `seed` yield identical outputs on the
same buffer with the same draw oracles, because the seed is passed to the
block-shift pass and never read there (nor anywhere else). -/
theorem seed_unused (data : List Pixel) (w h : ℕ) (params : GlitchParams)
    (s : ℚ) (uSort uBlock uChance uNoise : ℕ → ℚ) :
    processImage data w h { params with seed := s } uSort uBlock uChance
      uNoise
      = processImage data w h params uSort uBlock uChance uNoise := rfl
